import Mathlib

/-!
Shallow embedding of flaport's static blog generator (a Python program).

Python strings are modelled as `List Char` (`Str` below); Python dicts used
as identity registries are modelled as association lists; file system and
version-control queries are modelled as explicit function parameters; code
that can raise is modelled with `Option`/`Except` or an explicit error
component.  Each definition mirrors one function or code block of the
source file, keeping the source's names where Lean allows it.
-/

namespace Blog

/-- Python strings, modelled as lists of characters. -/
abbrev Str := List Char

/-- The characters Python's `str.strip()` removes (ASCII whitespace). -/
def pyIsSpace (c : Char) : Bool :=
  c = ' ' || c = '\t' || c = '\n' || c = '\r' || c = '\x0b' || c = '\x0c'

/-- Python `s.lstrip()`. -/
def lstrip (s : Str) : Str := s.dropWhile pyIsSpace

/-- Python `s.rstrip()`. -/
def rstrip (s : Str) : Str := (s.reverse.dropWhile pyIsSpace).reverse

/-- Python `s.strip()`. -/
def pstrip (s : Str) : Str := rstrip (lstrip s)

/-- Python `s.startswith(p)`. -/
def startsWith (p s : Str) : Bool := p.isPrefixOf s

/-- Python `s.split(sep)` for a one-character separator `sep`:
splits at every occurrence, keeping empty segments, never returning `[]`. -/
def splitChar (sep : Char) : Str → List Str
  | [] => [[]]
  | c :: rest =>
    if c = sep then [] :: splitChar sep rest
    else
      match splitChar sep rest with
      | [] => [[c]]
      | p :: ps => (c :: p) :: ps

/-- Python `content.split("](")`: the two-character separator used by
`replace_markdown_links`.  Since `"]("` cannot overlap itself, a greedy
left-to-right scan gives exactly Python's leftmost-first splitting. -/
def splitLB : Str → List Str
  | ']' :: '(' :: rest => [] :: splitLB rest
  | c :: rest =>
    match splitLB rest with
    | [] => [[c]]
    | p :: ps => (c :: p) :: ps
  | [] => [[]]

/-- Python `sep.join(xs)`. -/
def joinWith (sep : Str) (xs : List Str) : Str := List.intercalate sep xs

/-- The last path component of a POSIX-style relative path, as computed by
Python's `pathlib.PurePath(...).name` (empty and `.` components dropped). -/
def pathNameOf (s : Str) : Str :=
  (((splitChar '/' s).filter (fun c => c ≠ [] && c ≠ ['.'])).getLastD [])

/-- Python `pathlib.PurePath(s).stem`: the final component without its
suffix, where a suffix is the part after the last dot only when that dot
is neither the first nor the last character of the name. -/
def pathStem (s : Str) : Str :=
  let n := pathNameOf s
  match (List.range n.length).filter (fun i => n.getD i ' ' = '.') |>.getLast? with
  | none => n
  | some i => if 0 < i && i < n.length - 1 then n.take i else n

/-- `replace_markdown_links`, per-part body of the loop: `part.split(")")`,
rewrite the head target unless it starts with `http://`, `https://` or
`static`, and rejoin with `")"`. -/
def fixPart (part : Str) : Str :=
  match splitChar ')' part with
  | [] => part
  | target :: rest =>
    if startsWith "http://".data target || startsWith "https://".data target
        || startsWith "static".data target then
      part
    else
      joinWith [')'] (('/' :: pathStem target ++ ".html".data) :: rest)

/-- `replace_markdown_links(content)`: split on `"]("`, rewrite every part
after the first via `fixPart`, rejoin with `"]("`. -/
def replace_markdown_links (content : Str) : Str :=
  match splitLB content with
  | [] => content
  | p0 :: rest => joinWith [']', '('] (p0 :: rest.map fixPart)

/-- `Tag.name`: the folder stem up to the first `(`, stripped. -/
def Tag.name (stem : Str) : Str :=
  pstrip ((splitChar '(' stem).headD [])

/-- `Tag.longname`: `Tag.name` when the stem has no `(`; otherwise the
text between the first `(` and the next `)`, stripped. -/
def Tag.longname (stem : Str) : Str :=
  if '(' ∉ stem then Tag.name stem
  else pstrip ((splitChar ')' ((splitChar '(' stem).getD 1 [])).headD [])

/-! ### Sorting of posts and tags (`Tag.__init__` / `Index.__init__`)

Publish timestamps are modelled as a key function into `Nat`; Python's
`sorted` is a stable sort, modelled with `List.mergeSort`. -/

/-- `sorted(posts, key=lambda x: x.utcpublished(), reverse=True)`. -/
def sortPostsByPublished (pub : P → Nat) (posts : List P) : List P :=
  posts.mergeSort (fun a b => pub b ≤ pub a)

/-- Python string `<=`: lexicographic comparison by character code. -/
def strLE : Str → Str → Bool
  | [], _ => true
  | _ :: _, [] => false
  | a :: as, b :: bs => if a = b then strLE as bs else decide (a < b)

/-- The comparison induced by `key=lambda x: (-x.num_posts(), x.name())`. -/
def tagLE (num : T → Nat) (name : T → Str) (a b : T) : Bool :=
  decide (num b < num a) || (decide (num a = num b) && strLE (name a) (name b))

/-- `sorted(tags, key=lambda x: (-x.num_posts(), x.name()))`. -/
def sortTags (num : T → Nat) (name : T → Str) (tags : List T) : List T :=
  tags.mergeSort (tagLE num name)

/-- `Tag.__init__`: `self.posts = sorted(self.posts,
key=lambda x: x.utcpublished(), reverse=True)`. -/
def Tag.initPosts (pub : P → Nat) (discovered : List P) : List P :=
  sortPostsByPublished pub discovered

/-- `Index.__init__`: `self.posts = sorted(self.posts,
key=lambda x: x.utcpublished(), reverse=True)`. -/
def Index.initPosts (pub : P → Nat) (discovered : List P) : List P :=
  sortPostsByPublished pub discovered

/-- `Index.__init__`: `self.tags = sorted(self.tags,
key=lambda x: (-x.num_posts(), x.name()))`. -/
def Index.initTags (num : T → Nat) (name : T → Str) (discovered : List T) :
    List T :=
  sortTags num name discovered

/-! ### The process-wide `Post` registry (`Post.__new__` / `Post.__init__`)

`Post._posts` is a dict from path to instance, modelled as an association
list.  `constructPost` models the construction of the base `Post` and of
`HtmlPost`, whose only `__init__` is the guarded `Post.__init__` (the
variants differ in their `readlines`, passed as a function).
`NotebookPost` and `MarkdownPost` add an *unguarded* `__init__` body that
re-runs even when `__new__` returns the registered instance; that body is
modelled separately below (`NotebookPost.construct`). -/

structure PostData where
  path : Str
  tags : List Str
  lines : List Str
deriving DecidableEq, Repr

/-- The registry `Post._posts`. -/
abbrev Registry := List (Str × PostData)

/-- `Post(path)`: `__new__` returns the registered instance when `path` is
already a key, so `__init__` returns immediately and changes nothing;
otherwise a fresh instance is initialised (empty tag list, lines read from
the source) and recorded in the registry. -/
def constructPost (reg : Registry) (path : Str) (readlines : Str → List Str) :
    PostData × Registry :=
  match reg.lookup path with
  | some p => (p, reg)
  | none =>
    let p : PostData := { path := path, tags := [], lines := readlines path }
    (p, (path, p) :: reg)

/-! ### `NotebookPost.readlines` (title discovery) -/

inductive NbError where
  /-- Python `IndexError` from indexing an exhausted list. -/
  | indexError : NbError
  /-- The `RuntimeError(f"could not find title for post '{name}'")`. -/
  | titleError : Str → NbError
deriving DecidableEq, Repr

/-- The message of the title `RuntimeError`. -/
def titleErrorMsg (name : Str) : Str :=
  "could not find title for post '".data ++ name ++ "'".data

/-- A line is blank when `line.strip()` is falsy. -/
def isBlankLine (l : Str) : Bool := pstrip l = []

/-- `NotebookPost.readlines` on the first cell's `source` lines: drop
leading blank lines (`IndexError` when all are blank), strip leading
spaces off the title line (`IndexError` when it is all spaces), require
the `"# "` heading marker or fail with the `RuntimeError` naming the
post; on success the cell keeps the lines after the title and the post's
lines are the joined source re-split on newlines. -/
def nb_readlines (name : Str) (src : List Str) :
    Except NbError (List Str × List Str) :=
  match src.dropWhile isBlankLine with
  | [] => .error .indexError
  | title :: rest =>
    match title.dropWhile (· = ' ') with
    | [] => .error .indexError
    | t =>
      if startsWith "# ".data t then
        .ok (rest, splitChar '\n' (title :: rest).flatten)
      else
        .error (.titleError (titleErrorMsg name))

/-! ### `NotebookPost.__init__` (unguarded, re-runs on reconstruction)

The notebook JSON is modelled structurally: a cell has a `cell_type`, a
`source` line list, and outputs whose `data` dict maps mime-type keys to
payload strings (the model stores `json.dumps`-serialised payloads, so
`json.dumps(data[key])` is the stored string itself; an output without a
`data` entry is modelled by an empty association list).
`secrets.token_hex(8)` is an unpredictable fresh id per call, modelled as
an explicit draw counter rendered in decimal; the counter threads
through construction, so a re-run draws different ids. -/

/-- Python `needle in hay` for strings. -/
def containsSub (needle : Str) : Str → Bool
  | [] => needle.isEmpty
  | c :: rest => needle.isPrefixOf (c :: rest) || containsSub needle rest

/-- Python dict assignment `d[k] = v` on an insertion-ordered dict. -/
def setKey (k : Str) (v : α) : List (Str × α) → List (Str × α)
  | [] => [(k, v)]
  | (k', v') :: rest => if k' = k then (k, v) :: rest else (k', v') :: setKey k v rest

/-- Python `del d[k]` on an insertion-ordered dict (CPython raises
`KeyError` when the key is absent; the theorems below only evaluate it
where the key is present). -/
def delKey (k : Str) : List (Str × α) → List (Str × α)
  | [] => []
  | (k', v') :: rest => if k' = k then rest else (k', v') :: delKey k rest

/-- Python `d[k]` on an insertion-ordered dict with string values
(evaluated only where the key is present). -/
def getKey (k : Str) (d : List (Str × Str)) : Str := (d.lookup k).getD []

structure NbOutput where
  data : List (Str × Str)
deriving DecidableEq, Repr

structure NbCell where
  cell_type : Str
  source : List Str
  outputs : List NbOutput
deriving DecidableEq, Repr

structure Nb where
  cells : List NbCell
deriving DecidableEq, Repr

/-- `secrets.token_hex(8)`: one fresh id per draw. -/
def token_hex (counter : Nat) : Str := (toString counter).data

/-- `'{{ %s }}' % id`. -/
def plotPlaceholder (id : Str) : Str := "\x7b\x7b ".data ++ id ++ " \x7d\x7d".data

/-- The `vega.format(id=id, spec=...)` template of
`_patch_json_for_interactive_plots`. -/
def vegaFormat (id spec : Str) : Str :=
  "<div id=\"vis".data ++ id
    ++ "\"></div>\n<script type=\"text/javascript\">\nvar spec = ".data
    ++ spec ++ "\nvegaEmbed(\"#vis".data ++ id
    ++ "\", spec, \x7b\"actions\":false\x7d);\n</script>".data

/-- The `plotly.format(id=id, spec=...)` template of
`_patch_json_for_interactive_plots`. -/
def plotlyFormat (id spec : Str) : Str :=
  "<div id=\"".data ++ id
    ++ "\" class=\"plotly-graph-div\"></div>\n<script type=\"text/javascript\">\nwindow.PLOTLYENV=window.PLOTLYENV || \x7b\x7d\nwindow.PLOTLYENV.BASE_URL=\"https://plot.ly\"\nvar spec = ".data
    ++ spec ++ "\nPlotly.newPlot(\"".data ++ id
    ++ "\", spec, \x7b\x7d, \x7b\"showLink\": false, \"linkText\": \"\"\x7d)\n\n</script>\n".data

/-- `NotebookPost._needs_mathjax`: scan markdown cells' joined source
(newlines replaced by spaces) for the `MATHJAX_PATTERNS`: the literal
`\begin{align}` / `\begin{align*}`, or `$[^$]*$` (which `re.search`
finds exactly when at least two `$` occur). -/
def needs_mathjax (nb : Nb) : Bool :=
  nb.cells.any fun cl =>
    cl.cell_type = "markdown".data
    && (let content := (joinWith " ".data cl.source).map
          fun c => if c = '\n' then ' ' else c
        containsSub "\\begin\x7balign\x7d".data content
          || containsSub "\\begin\x7balign*\x7d".data content
          || decide (2 ≤ content.count '$'))

/-- `NotebookPost._replace_raw_cell_by_markdown_cell`. -/
def replace_raw_cell_by_markdown_cell (nb : Nb) : Nb :=
  { cells := nb.cells.map fun cl =>
      if cl.cell_type = "raw".data then
        { cl with cell_type := "markdown".data,
                  source := "\n```python\n".data :: (cl.source ++ ["\n```\n".data]) }
      else cl }

/-- `NotebookPost._delete_marked_codecells`: drop every code cell whose
first source line strips to `#!` (deletion by reversed index equals an
order-preserving filter). -/
def delete_marked_codecells (nb : Nb) : Nb :=
  { cells := nb.cells.filter fun cl =>
      !(cl.cell_type = "code".data && pstrip (cl.source.headD []) = "#!".data) }

/-- The `for key in keys` loop of `_patch_json_for_interactive_plots`:
draw a fresh id, append the placeholder to `data['text/plain']`, and
record the formatted snippet under the placeholder in the vega dict when
the key mentions `vega`, else in the plotly dict when it mentions
`plotly`. -/
def patchKeysLoop (counter : Nat) (keys : List Str) (data : List (Str × Str))
    (plotly vega : List (Str × Str)) :
    List (Str × Str) × List (Str × Str) × List (Str × Str) × Nat :=
  match keys with
  | [] => (data, plotly, vega, counter)
  | key :: ks =>
    let id := token_hex counter
    let data' := setKey "text/plain".data
      (getKey "text/plain".data data ++ plotPlaceholder id ++ "\n".data) data
    if containsSub "vega".data key then
      patchKeysLoop (counter + 1) ks data' plotly
        (setKey (plotPlaceholder id) (vegaFormat id (getKey key data')) vega)
    else if containsSub "plotly".data key then
      patchKeysLoop (counter + 1) ks data'
        (setKey (plotPlaceholder id) (plotlyFormat id (getKey key data')) plotly) vega
    else
      patchKeysLoop (counter + 1) ks data' plotly vega

/-- The per-output body of `_patch_json_for_interactive_plots`: skip an
output without data or without plotly/vega keys; otherwise delete
`image/png`, reset `text/plain`, and run the key loop. -/
def patchOutput (counter : Nat) (o : NbOutput) (plotly vega : List (Str × Str)) :
    NbOutput × List (Str × Str) × List (Str × Str) × Nat :=
  if o.data.isEmpty then (o, plotly, vega, counter)
  else
    let keys := (o.data.map Prod.fst).filter fun k =>
      containsSub "plotly".data k || containsSub "vega".data k
    if keys.isEmpty then (o, plotly, vega, counter)
    else
      let d1 := delKey "image/png".data o.data
      let d2 := setKey "text/plain".data [] d1
      match patchKeysLoop counter keys d2 plotly vega with
      | (d3, plotly', vega', c') => ({ data := d3 }, plotly', vega', c')

/-- The `for output in outputs` loop. -/
def patchOutputsLoop (counter : Nat) (outs : List NbOutput)
    (plotly vega : List (Str × Str)) :
    List NbOutput × List (Str × Str) × List (Str × Str) × Nat :=
  match outs with
  | [] => ([], plotly, vega, counter)
  | o :: os =>
    match patchOutput counter o plotly vega with
    | (o', pl1, vg1, c1) =>
      match patchOutputsLoop c1 os pl1 vg1 with
      | (os', pl', vg', c') => (o' :: os', pl', vg', c')

/-- The `for i, cell in enumerate(dic['cells'])` loop: a cell without
outputs is skipped unchanged. -/
def patchCellsLoop (counter : Nat) (cells : List NbCell)
    (plotly vega : List (Str × Str)) :
    List NbCell × List (Str × Str) × List (Str × Str) × Nat :=
  match cells with
  | [] => ([], plotly, vega, counter)
  | cl :: cls =>
    if cl.outputs.isEmpty then
      match patchCellsLoop counter cls plotly vega with
      | (cls', pl', vg', c') => (cl :: cls', pl', vg', c')
    else
      match patchOutputsLoop counter cl.outputs plotly vega with
      | (outs', pl1, vg1, c1) =>
        match patchCellsLoop c1 cls pl1 vg1 with
        | (cls', pl', vg', c') => ({ cl with outputs := outs' } :: cls', pl', vg', c')

/-- `NotebookPost._patch_json_for_interactive_plots`: returns the patched
notebook, the plotly and vega placeholder dicts, and the advanced token
counter. -/
def patch_json_for_interactive_plots (counter : Nat) (nb : Nb) :
    Nb × List (Str × Str) × List (Str × Str) × Nat :=
  match patchCellsLoop counter nb.cells [] [] with
  | (cells', plotly, vega, c') => ({ cells := cells' }, plotly, vega, c')

/-- `Post.name`: `str(self.path.relative_to(POSTDIR).stem)`; dropping the
`posts/` prefix does not change the stem of the final component. -/
def Post.nameOf (path : Str) : Str := pathStem path

/-- A `NotebookPost`/`MarkdownPost` instance: the base fields set by the
guarded `Post.__init__` (`path`, `tags`, `lines`) plus the fields the
variant `__init__` body assigns. -/
structure NbPostData where
  path : Str
  tags : List Str
  json : Nb
  mathjax : Bool
  plotly_plots : List (Str × Str)
  vega_plots : List (Str × Str)
  lines : List Str
deriving DecidableEq, Repr

/-- The registry `Post._posts`, holding notebook instances. -/
abbrev NbRegistry := List (Str × NbPostData)

/-- The unguarded body of `NotebookPost.__init__` after
`super().__init__`: re-read the notebook (`fsNb` models
`readjson` — for `MarkdownPost`, the single-cell wrapping of the file),
recompute `mathjax` on the pristine JSON, replace raw cells, delete
marked code cells, patch interactive plots (drawing fresh ids from the
counter), and re-run `readlines` (which strips the title from the first
cell or raises).  Only `path` and `tags` are left untouched. -/
def notebookInitBody (fsNb : Str → Nb) (counter : Nat) (self : NbPostData) :
    Except NbError (NbPostData × Nat) :=
  let json0 := fsNb self.path
  let mathjax := needs_mathjax json0
  let json2 := delete_marked_codecells (replace_raw_cell_by_markdown_cell json0)
  match patch_json_for_interactive_plots counter json2 with
  | (json3, plotly, vega, c') =>
    match json3.cells with
    | [] => .error .indexError
    | cl :: cls =>
      match nb_readlines (Post.nameOf self.path) cl.source with
      | .error e => .error e
      | .ok (newSrc, lines) =>
        .ok ({ self with
                json := { cells := { cl with source := newSrc } :: cls }
                mathjax := mathjax
                plotly_plots := plotly
                vega_plots := vega
                lines := lines }, c')

/-- `NotebookPost(path)` (also `MarkdownPost(path)`): `__new__` returns
the registered instance when `path` is a key — and the variant
`__init__` body still runs on it, re-assigning its fields (the registry
keeps pointing at the same, now-mutated instance); otherwise a fresh
instance goes through the guarded base `__init__` (registered, `tags`
emptied, `lines` set to `[]` because the `json` attribute does not exist
yet) and then through the body. -/
def NotebookPost.construct (fsNb : Str → Nb) (reg : NbRegistry) (counter : Nat)
    (path : Str) : Except NbError (NbPostData × NbRegistry × Nat) :=
  match reg.lookup path with
  | some p =>
    match notebookInitBody fsNb counter p with
    | .error e => .error e
    | .ok (p', c') => .ok (p', setKey path p' reg, c')
  | none =>
    let p0 : NbPostData :=
      { path := path, tags := [], json := { cells := [] }, mathjax := false,
        plotly_plots := [], vega_plots := [], lines := [] }
    match notebookInitBody fsNb counter p0 with
    | .error e => .error e
    | .ok (p1, c') => .ok (p1, (path, p1) :: reg, c')

/-- The `cell_type`/`source` part of a cell, untouched by the
interactive-plot patching (which rewrites only output data). -/
def cellSig (cl : NbCell) : Str × List Str := (cl.cell_type, cl.source)

/-- A concrete notebook with one plotly output, used to exhibit the
field changes a re-run of `NotebookPost.__init__` causes. -/
def plotNb : Nb :=
  { cells := [
      { cell_type := "markdown".data
        source := ["# Demo\n".data, "A post with a plot.\n".data]
        outputs := [] },
      { cell_type := "code".data
        source := ["import plotly\n".data]
        outputs := [
          { data := [("application/vnd.plotly.v1+json".data, "\x7b\x7d".data),
                     ("image/png".data, "iVBOR".data),
                     ("text/plain".data, "<Figure>".data)] } ] } ] }

def demoPath : Str := "posts/demo.ipynb".data

def plotFirst : Except NbError (NbPostData × NbRegistry × Nat) :=
  NotebookPost.construct (fun _ => plotNb) [] 0 demoPath

def plotSecond : Except NbError (NbPostData × NbRegistry × Nat) :=
  match plotFirst with
  | .ok (_, reg1, c1) => NotebookPost.construct (fun _ => plotNb) reg1 c1 demoPath
  | .error e => .error e

/-- The constructed instance of a construction result. -/
def exceptPost : Except NbError (NbPostData × NbRegistry × Nat) → Option NbPostData
  | .ok (p, _, _) => some p
  | .error _ => none

/-- A concrete plot-free notebook and its first-construction result,
used to witness the amended registry theorem. -/
def wNb : Nb :=
  { cells := [
      { cell_type := "markdown".data
        source := ["# T\n".data, "body".data]
        outputs := [] } ] }

def wP1 : NbPostData :=
  { path := demoPath
    tags := []
    json := { cells := [
      { cell_type := "markdown".data, source := ["body".data], outputs := [] } ] }
    mathjax := false
    plotly_plots := []
    vega_plots := []
    lines := ["# T".data, "body".data] }

/-! ### The memoisation decorator (`cache = partial(lru_cache, None, True)`)

An accessor's cache cell is `none` before the first call; `calls` counts
invocations of the underlying computation. -/

structure CacheState (α : Type) where
  value : Option α
  calls : Nat
deriving DecidableEq, Repr

/-- One call of an accessor wrapped by the `cache` decorator: return the
memoised value when present, otherwise run the computation once, record
and return its result. -/
def cachedCall (compute : Unit → α) (s : CacheState α) : α × CacheState α :=
  match s.value with
  | some v => (v, s)
  | none =>
    let v := compute ()
    (v, { value := some v, calls := s.calls + 1 })

/-! ### Next/previous sibling links (`Index.render` / `Tag.render` loops) -/

structure RenderCall (P : Type) where
  post : P
  next_post : Option P
  previous_post : Option P
deriving DecidableEq, Repr

/-- The loop `for i, post in enumerate(posts): next_post = None if i==0
else posts[i-1]; previous_post = None if i == num_posts-1 else posts[i+1];
post.render(...)`, shared verbatim by `Index.render` and `Tag.render`. -/
def renderLoopCalls (posts : List P) : List (RenderCall P) :=
  let num_posts := posts.length
  posts.enum.map fun ip =>
    { post := ip.2
      next_post := if ip.1 = 0 then none else posts[ip.1 - 1]?
      previous_post := if ip.1 = num_posts - 1 then none else posts[ip.1 + 1]? }

/-! ### Author and timestamps (`Post.author`, `Post.utcpublished`,
`Post.utcmodified`)

The `git log` output is a parameter; `datetime.strptime` together with the
subsequent UTC normalisation is an external-library boundary, modelled as
a parameter `parse` returning the normalised UTC instant or `none` where
`strptime` would raise `ValueError` (in particular on the empty string). -/

/-- Python `s.lower()` (ASCII). -/
def pyLower (s : Str) : Str := s.map Char.toLower

/-- Python `s.capitalize()` (ASCII). -/
def pyCapitalize : Str → Str
  | [] => []
  | c :: cs => Char.toUpper c :: (cs.map Char.toLower)

/-- `Post.author`: first line of the `git log` author output, stripped;
`"Anonymous"` when that is empty; then `.lower().capitalize()`. -/
def Post.author (gitOut : Str) : Str :=
  let a := pstrip ((splitChar '\n' gitOut).headD [])
  let a := if a = [] then "Anonymous".data else a
  pyCapitalize (pyLower a)

/-- `Post.utcpublished` (and, with its own `git log` query,
`Post.utcmodified`): strip the query output, parse it, and fall back to
`datetime.utcnow()` when parsing raises. -/
def Post.utcpublished (parse : Str → Option Int) (now : Int) (gitOut : Str) : Int :=
  match parse (pstrip gitOut) with
  | some t => t
  | none => now

/-! ### Template loading (`get_template`) -/

/-- A jinja2 template, identified by its source text; compilation is the
external template engine's concern. -/
structure Template where
  src : Str
deriving DecidableEq, Repr

/-- `get_template(name)`: when `TEMPLATEDIR/name` does not exist, return
`Template("")`; otherwise the template compiled from the file's content.
The file system is a map from paths to contents. -/
def get_template (fs : Str → Option Str) (name : Str) : Template :=
  match fs ("templates/".data ++ name) with
  | none => { src := [] }
  | some content => { src := content }

/-- The three verification-file names of `Index`. -/
def bingverification : Str := "BingSiteAuth.xml".data
def googleverification : Str := "googlefb30e5afe41cb0d2.html".data
def yandexverification : Str := "yandex_d77fd905780b76f1.html".data

/-- `Index.render`'s three verification outputs: each name's template is
loaded via `get_template` and rendered with `rend` (the external template
engine, rendering with no context). -/
def verificationOutputs (fs : Str → Option Str) (rend : Str → Str) :
    Str × Str × Str :=
  (rend (get_template fs bingverification).src,
   rend (get_template fs googleverification).src,
   rend (get_template fs yandexverification).src)

/-! ### Rendering with an empty post list (`Tag.render` / `Index.render`)

Each render is modelled as the list of files it writes plus an optional
error; `posts[0]` on an empty list raises `IndexError` in the very first
statement, before any write. -/

inductive RenderErr where
  | indexError : RenderErr
deriving DecidableEq, Repr

/-- `Tag.render`: the first statement evaluates `self.posts[0]`
(`IndexError` on an empty member list, nothing written); otherwise each
member is written tag-scoped and finally the tag's own `index.html`. -/
def Tag.renderM (uriOf : P → Str) (tagUri : Str) (posts : List P) :
    List Str × Option RenderErr :=
  match posts with
  | [] => ([], some .indexError)
  | _ =>
    ((posts.map fun p => "html/".data ++ tagUri ++ uriOf p)
      ++ ["html/".data ++ tagUri ++ "index.html".data], none)

/-- The `for tag in self.tags: tag.render(...)` loop, stopping at the
first failing tag and keeping the files written before it. -/
def renderTagsLoop (uriOf : P → Str) :
    List (Str × List P) → List Str × Option RenderErr
  | [] => ([], none)
  | (u, ps) :: rest =>
    match Tag.renderM uriOf u ps with
    | (ws, some e) => (ws, some e)
    | (ws, none) =>
      (ws ++ (renderTagsLoop uriOf rest).1, (renderTagsLoop uriOf rest).2)

/-- `Index.render`: the first statement evaluates `self.posts[0]`
(`IndexError` on an empty post list, nothing written); otherwise every
post is written standalone, every tag is rendered, and the root documents
are written last. -/
def Index.renderM (uriOf : P → Str) (posts : List P)
    (tags : List (Str × List P)) : List Str × Option RenderErr :=
  match posts with
  | [] => ([], some .indexError)
  | _ =>
    let postFiles := posts.map fun p => "html/".data ++ uriOf p
    match renderTagsLoop uriOf tags with
    | (tws, some e) => (postFiles ++ tws, some e)
    | (tws, none) =>
      (postFiles ++ tws
        ++ ["html/index.html".data, "html/index.xml".data,
            "html/sitemap.xml".data,
            "html/".data ++ bingverification,
            "html/".data ++ googleverification,
            "html/".data ++ yandexverification], none)

/-! ## Helper lemmas -/

theorem joinWith_singleton (sep x : Str) : joinWith sep [x] = x := by
  simp [joinWith, List.intercalate, List.intersperse]

theorem joinWith_cons_cons (sep x y : Str) (xs : List Str) :
    joinWith sep (x :: y :: xs) = x ++ sep ++ joinWith sep (y :: xs) := by
  simp [joinWith, List.intercalate, List.intersperse]

/-! ## Claims -/

/-- Base-variant construction (`Post` and `HtmlPost`): a second
construction with the same path returns the identical registered
instance with all fields unchanged and leaves the registry untouched,
whichever variant (`readlines` implementation) issues it. -/
theorem construct_post_single_instance (reg : Registry) (path : Str)
    (rd rd' : Str → List Str) :
    constructPost (constructPost reg path rd).2 path rd'
      = constructPost reg path rd := by
  unfold constructPost
  cases h : reg.lookup path with
  | some p => simp [h]
  | none => simp [h, List.lookup]

theorem setKey_lookup (k : Str) (v : α) (d : List (Str × α)) :
    (setKey k v d).lookup k = some v := by
  induction d with
  | nil => simp [setKey]
  | cons kv rest ih =>
    obtain ⟨k', v'⟩ := kv
    by_cases h : k' = k
    · subst h
      simp [setKey]
    · rw [setKey, if_neg h]
      rw [List.lookup]
      have hb : (k == k') = false := by
        simpa using fun e => h e.symm
      rw [hb]
      exact ih

theorem patchCellsLoop_sig (cells : List NbCell) :
    ∀ (counter : Nat) (pl vg : List (Str × Str)),
      ((patchCellsLoop counter cells pl vg).1).map cellSig
        = cells.map cellSig := by
  induction cells with
  | nil => intro c pl vg; rfl
  | cons cl cls ih =>
    intro c pl vg
    rw [patchCellsLoop]
    by_cases ho : cl.outputs.isEmpty
    · rw [if_pos ho]
      rcases hrec : patchCellsLoop c cls pl vg with ⟨cls', pl', vg', c'⟩
      have hmap := ih c pl vg
      rw [hrec] at hmap
      simpa using hmap
    · rw [if_neg ho]
      rcases ho2 : patchOutputsLoop c cl.outputs pl vg with ⟨outs', pl1, vg1, c1⟩
      dsimp only
      rcases hrec : patchCellsLoop c1 cls pl1 vg1 with ⟨cls', pl', vg', c'⟩
      have hmap := ih c1 pl1 vg1
      rw [hrec] at hmap
      simpa [cellSig] using hmap

theorem patch_sig (counter : Nat) (nb : Nb) :
    ((patch_json_for_interactive_plots counter nb).1).cells.map cellSig
      = nb.cells.map cellSig := by
  rw [patch_json_for_interactive_plots]
  rcases h : patchCellsLoop counter nb.cells [] [] with ⟨cells', pl, vg, c'⟩
  have hmap := patchCellsLoop_sig nb.cells counter [] []
  rw [h] at hmap
  exact hmap

theorem notebookInitBody_rerun (fsNb : Str → Nb) (counter : Nat)
    (self q : NbPostData) (c' : Nat)
    (h : notebookInitBody fsNb counter self = .ok (q, c'))
    (self₂ : NbPostData) (c₂ : Nat) (hp : self₂.path = self.path) :
    q.path = self.path ∧ q.tags = self.tags
    ∧ ∃ q₂ c₂', notebookInitBody fsNb c₂ self₂ = .ok (q₂, c₂')
        ∧ q₂.path = self₂.path ∧ q₂.tags = self₂.tags := by
  rw [notebookInitBody] at h
  dsimp only at h
  rcases hpt : patch_json_for_interactive_plots counter
      (delete_marked_codecells
        (replace_raw_cell_by_markdown_cell (fsNb self.path)))
    with ⟨json3, pl, vg, cp⟩
  rw [hpt] at h
  dsimp only at h
  cases hcells : json3.cells with
  | nil =>
    rw [hcells] at h
    exact absurd h (by simp)
  | cons cl cls =>
    rw [hcells] at h
    dsimp only at h
    cases hrl : nb_readlines (Post.nameOf self.path) cl.source with
    | error e =>
      rw [hrl] at h
      exact absurd h (by simp)
    | ok v =>
      obtain ⟨newSrc, lines⟩ := v
      rw [hrl] at h
      dsimp only at h
      have hq : q = { self with
          json := { cells := { cl with source := newSrc } :: cls }
          mathjax := needs_mathjax (fsNb self.path)
          plotly_plots := pl
          vega_plots := vg
          lines := lines } := by
        have := h.symm
        simp only [Except.ok.injEq, Prod.mk.injEq] at this
        exact this.1
      refine ⟨by rw [hq], by rw [hq], ?_⟩
      rw [notebookInitBody, hp]
      dsimp only
      rcases hpt2 : patch_json_for_interactive_plots c₂
          (delete_marked_codecells
            (replace_raw_cell_by_markdown_cell (fsNb self.path)))
        with ⟨json3', pl', vg', cp'⟩
      dsimp only
      have hs : json3'.cells.map cellSig = json3.cells.map cellSig := by
        have h1 := patch_sig counter
          (delete_marked_codecells
            (replace_raw_cell_by_markdown_cell (fsNb self.path)))
        have h2 := patch_sig c₂
          (delete_marked_codecells
            (replace_raw_cell_by_markdown_cell (fsNb self.path)))
        rw [hpt] at h1
        rw [hpt2] at h2
        exact h2.trans h1.symm
      rw [hcells] at hs
      cases hc2 : json3'.cells with
      | nil =>
        rw [hc2] at hs
        simp at hs
      | cons cl₂ cls₂ =>
        rw [hc2] at hs
        simp only [List.map_cons, List.cons.injEq] at hs
        have hsrc : cl₂.source = cl.source := congrArg Prod.snd hs.1
        dsimp only
        rw [hsrc, hrl]
        dsimp only
        exact ⟨_, cp', rfl, rfl, rfl⟩

theorem construct_inv (fsNb : Str → Nb) (reg : NbRegistry) (counter : Nat)
    (path : Str) (p1 : NbPostData) (reg1 : NbRegistry) (c1 : Nat)
    (h : NotebookPost.construct fsNb reg counter path = .ok (p1, reg1, c1)) :
    reg1.lookup path = some p1
    ∧ ∃ self, notebookInitBody fsNb counter self = .ok (p1, c1) := by
  rw [NotebookPost.construct] at h
  cases hl : reg.lookup path with
  | some p =>
    rw [hl] at h
    dsimp only at h
    cases hb : notebookInitBody fsNb counter p with
    | error e => rw [hb] at h; exact absurd h (by simp)
    | ok qc =>
      obtain ⟨q, c'⟩ := qc
      rw [hb] at h
      dsimp only at h
      have := h.symm
      simp only [Except.ok.injEq, Prod.mk.injEq] at this
      obtain ⟨rfl, rfl, rfl⟩ := this
      exact ⟨setKey_lookup path p1 reg, p, hb⟩
  | none =>
    rw [hl] at h
    dsimp only at h
    cases hb : notebookInitBody fsNb counter
        { path := path, tags := [], json := { cells := [] }, mathjax := false,
          plotly_plots := [], vega_plots := [], lines := [] } with
    | error e => rw [hb] at h; exact absurd h (by simp)
    | ok qc =>
      obtain ⟨q, c'⟩ := qc
      rw [hb] at h
      dsimp only at h
      have := h.symm
      simp only [Except.ok.injEq, Prod.mk.injEq] at this
      obtain ⟨rfl, rfl, rfl⟩ := this
      refine ⟨?_, _, hb⟩
      simp [List.lookup]

/-- C1 (corrected): constructing a `Post` twice with the same path within
one process run returns the identical registered instance.  For the base
`Post` and `HtmlPost` variants the second construction re-runs no
initialisation (all fields and the registry unchanged); for a
`NotebookPost`/`MarkdownPost` the second construction starts from the
registered instance but re-runs the variant `__init__` body on it,
leaving the base fields `path` and `tags` untouched while reassigning
the variant fields. -/
theorem construct_post_registry_amended :
    (∀ (reg : Registry) (path : Str) (rd rd' : Str → List Str),
        constructPost (constructPost reg path rd).2 path rd'
          = constructPost reg path rd)
    ∧ (∀ (fsNb : Str → Nb) (reg : NbRegistry) (counter : Nat) (path : Str)
          (p1 : NbPostData) (reg1 : NbRegistry) (c1 : Nat),
        NotebookPost.construct fsNb reg counter path = .ok (p1, reg1, c1) →
        reg1.lookup path = some p1
        ∧ ∃ p2 c2, NotebookPost.construct fsNb reg1 c1 path
            = .ok (p2, setKey path p2 reg1, c2)
          ∧ p2.path = p1.path ∧ p2.tags = p1.tags) := by
  refine ⟨construct_post_single_instance, ?_⟩
  intro fsNb reg counter path p1 reg1 c1 h
  obtain ⟨hreg, self, hbody⟩ := construct_inv fsNb reg counter path p1 reg1 c1 h
  have hfacts := notebookInitBody_rerun fsNb counter self p1 c1 hbody self counter rfl
  obtain ⟨q₂, c₂', hb2, hq2p, hq2t⟩ :=
    (notebookInitBody_rerun fsNb counter self p1 c1 hbody p1 c1 hfacts.1).2.2
  refine ⟨hreg, q₂, c₂', ?_, hq2p, hq2t⟩
  rw [NotebookPost.construct, hreg]
  dsimp only
  rw [hb2]

theorem construct_post_registry_amended_witness :
    NotebookPost.construct (fun _ => wNb) [] 0 demoPath
        = .ok (wP1, [(demoPath, wP1)], 0)
    ∧ ([(demoPath, wP1)].lookup demoPath = some wP1
        ∧ ∃ p2 c2, NotebookPost.construct (fun _ => wNb) [(demoPath, wP1)] 0 demoPath
            = .ok (p2, setKey demoPath p2 [(demoPath, wP1)], c2)
          ∧ p2.path = wP1.path ∧ p2.tags = wP1.tags) :=
  ⟨rfl, construct_post_registry_amended.2 (fun _ => wNb) [] 0 demoPath wP1
      [(demoPath, wP1)] 0 rfl⟩

/-- C1 counterexample: for the concrete notebook `plotNb` (one plotly
output), constructing the post a second time with the same path re-runs
`NotebookPost.__init__` and returns the registered instance with a
different `plotly_plots` dict (a freshly drawn placeholder id), so the
claim that the second construction leaves the post's fields unchanged is
false. -/
theorem notebook_reinit_counterexample :
    (exceptPost plotFirst).isSome = true
    ∧ (exceptPost plotSecond).isSome = true
    ∧ (exceptPost plotSecond).map NbPostData.plotly_plots
        ≠ (exceptPost plotFirst).map NbPostData.plotly_plots
    ∧ exceptPost plotSecond ≠ exceptPost plotFirst :=
  ⟨by decide, by decide, by decide, by decide⟩

/-- C9: an accessor wrapped by the `cache` decorator computes its value at
most once: a repeated call returns the identical cached value and state
without re-invoking the underlying computation, and a first call on a
cold cache invokes it exactly once. -/
theorem cached_accessor_computes_once (compute : Unit → α) (s : CacheState α) :
    cachedCall compute ((cachedCall compute s).2) = cachedCall compute s
    ∧ (s.value = none →
        ((cachedCall compute s).2).calls = s.calls + 1) := by
  constructor
  · cases h : s.value with
    | some v => simp [cachedCall, h]
    | none => simp [cachedCall, h]
  · intro h
    simp [cachedCall, h]

theorem cached_accessor_computes_once_witness :
    (⟨none, 0⟩ : CacheState Nat).value = none
    ∧ ((cachedCall (fun _ => 7) (⟨none, 0⟩ : CacheState Nat)).2).calls = 0 + 1 :=
  ⟨rfl, (cached_accessor_computes_once (fun _ => 7) ⟨none, 0⟩).2 rfl⟩

/-- C7: when the version-control history query returns empty output, the
author accessor falls back to `"Anonymous"` and the publish/modify
timestamp accessors fall back to the current time instead of raising (the
date parser rejects the empty string). -/
theorem missing_history_fallbacks :
    Post.author [] = "Anonymous".data
    ∧ ∀ (parse : Str → Option Int) (now : Int), parse [] = none →
        Post.utcpublished parse now [] = now := by
  refine ⟨by decide, fun parse now h => ?_⟩
  simp [Post.utcpublished, pstrip, lstrip, rstrip, h]

theorem missing_history_fallbacks_witness :
    (fun _ : Str => (none : Option Int)) [] = none
    ∧ Post.utcpublished (fun _ => none) 37 [] = 37 :=
  ⟨rfl, missing_history_fallbacks.2 (fun _ => none) 37 rfl⟩

/-- C8: requesting a template whose file does not exist yields
`Template("")`, which renders to the empty string (for any renderer that
renders the empty template to the empty string); in particular the three
verification documents degrade to empty output when their files are
absent. -/
theorem missing_template_renders_empty (fs : Str → Option Str)
    (rend : Str → Str) (name : Str)
    (hr : rend [] = [])
    (hn : fs ("templates/".data ++ name) = none) :
    (get_template fs name).src = []
    ∧ rend (get_template fs name).src = []
    ∧ ((fs ("templates/".data ++ bingverification) = none
        ∧ fs ("templates/".data ++ googleverification) = none
        ∧ fs ("templates/".data ++ yandexverification) = none) →
        verificationOutputs fs rend = ([], [], [])) := by
  refine ⟨?_, ?_, ?_⟩
  · simp only [get_template]
    rw [hn]
  · simp only [get_template]
    rw [hn]
    exact hr
  · rintro ⟨h1, h2, h3⟩
    simp only [verificationOutputs, get_template]
    rw [h1, h2, h3]
    simp [hr]

theorem missing_template_renders_empty_witness :
    (fun s : Str => s) [] = []
    ∧ (fun _ : Str => (none : Option Str)) ("templates/".data ++ "post.html".data) = none
    ∧ (get_template (fun _ => none) "post.html".data).src = [] :=
  ⟨rfl, rfl,
    (missing_template_renders_empty (fun _ => none) (fun s => s)
      "post.html".data rfl rfl).1⟩

theorem splitChar_ne_nil (c : Char) (s : Str) : splitChar c s ≠ [] := by
  induction s with
  | nil => simp [splitChar]
  | cons d s' ih =>
    simp only [splitChar]
    split
    · simp
    · split
      · simp
      · simp

theorem splitChar_of_not_mem (c : Char) (s : Str) (h : c ∉ s) :
    splitChar c s = [s] := by
  induction s with
  | nil => rfl
  | cons d s' ih =>
    simp only [List.mem_cons, not_or] at h
    have hd : ¬ d = c := fun e => h.1 e.symm
    rw [splitChar, if_neg hd, ih h.2]

theorem splitChar_append_cons (c : Char) (a b : Str) (h : c ∉ a) :
    splitChar c (a ++ c :: b) = a :: splitChar c b := by
  induction a with
  | nil => simp [splitChar]
  | cons d a' ih =>
    simp only [List.mem_cons, not_or] at h
    have hd : ¬ d = c := fun e => h.1 e.symm
    rw [List.cons_append, splitChar, if_neg hd, ih h.2]

theorem headD_splitChar_append (c : Char) (a b : Str) (h : c ∉ a) :
    (splitChar c (a ++ b)).headD [] = a ++ (splitChar c b).headD [] := by
  induction a with
  | nil => simp
  | cons d a' ih =>
    simp only [List.mem_cons, not_or] at h
    have hd : ¬ d = c := fun e => h.1 e.symm
    rw [List.cons_append, splitChar, if_neg hd]
    rcases hs : splitChar c (a' ++ b) with _ | ⟨p, ps⟩
    · exact absurd hs (splitChar_ne_nil c (a' ++ b))
    · have := ih h.2
      rw [hs] at this
      simpa using this

/-- C4: tag name parsing — the short name is the folder stem up to an
optional parenthesized suffix (stripped), the long name is the content of
that suffix when present and otherwise equals the short name; in
particular `linux (desktop linux)` ↦ (`linux`, `desktop linux`) and
`rust` ↦ (`rust`, `rust`). -/
theorem tag_name_parsing :
    (∀ stem : Str, '(' ∉ stem →
       Tag.name stem = pstrip stem ∧ Tag.longname stem = Tag.name stem)
    ∧ (∀ n l r : Str, '(' ∉ n → '(' ∉ l → ')' ∉ l →
        Tag.name (n ++ '(' :: (l ++ ')' :: r)) = pstrip n
        ∧ Tag.longname (n ++ '(' :: (l ++ ')' :: r)) = pstrip l)
    ∧ Tag.name "linux (desktop linux)".data = "linux".data
    ∧ Tag.longname "linux (desktop linux)".data = "desktop linux".data
    ∧ Tag.name "rust".data = "rust".data
    ∧ Tag.longname "rust".data = "rust".data := by
  refine ⟨fun stem h => ⟨?_, ?_⟩, fun n l r hn hl hl' => ⟨?_, ?_⟩,
    by decide, by decide, by decide, by decide⟩
  · rw [Tag.name, splitChar_of_not_mem '(' stem h]
    rfl
  · rw [Tag.longname, if_pos h]
  · rw [Tag.name, splitChar_append_cons '(' n _ hn]
    rfl
  · have hmem : '(' ∈ n ++ '(' :: (l ++ ')' :: r) := by simp
    rw [Tag.longname, if_neg (by simp)]
    rw [splitChar_append_cons '(' n _ hn]
    simp only [List.getD_cons_succ, List.getD_cons_zero]
    rcases hs : splitChar '(' (l ++ ')' :: r) with _ | ⟨p, ps⟩
    · exact absurd hs (splitChar_ne_nil _ _)
    · have hhead := headD_splitChar_append '(' l (')' :: r) hl
      rw [hs] at hhead
      simp only [List.headD_cons] at hhead
      have hpar : (splitChar '(' (')' :: r)).headD []
          = ')' :: (splitChar '(' r).headD [] := by
        rw [splitChar, if_neg (by decide)]
        rcases hr : splitChar '(' r with _ | ⟨q, qs⟩
        · exact absurd hr (splitChar_ne_nil _ _)
        · simp
      rw [hpar] at hhead
      simp only [List.getD_cons_zero]
      rw [hhead, splitChar_append_cons ')' l _ hl']
      rfl

theorem tag_name_parsing_witness :
    ('(' ∉ "rust".data)
    ∧ Tag.name "rust".data = pstrip "rust".data
    ∧ Tag.longname ("linux ".data ++ '(' :: ("desktop linux".data ++ ')' :: []))
        = pstrip "desktop linux".data :=
  ⟨by decide, (tag_name_parsing.1 "rust".data (by decide)).1,
    (tag_name_parsing.2.1 "linux ".data "desktop linux".data []
      (by decide) (by decide) (by decide)).2⟩

/-- C6: a notebook/markdown post whose first non-blank source line (after
stripping leading spaces) does not start with the heading marker `"# "`
fails construction with the `RuntimeError` whose message names the post;
otherwise `readlines` succeeds, returning the remaining cell source and
the re-split lines without converting any content. -/
theorem notebook_title_check (name : Str) (src : List Str) (title : Str)
    (rest : List Str) (h : src.dropWhile isBlankLine = title :: rest) :
    (startsWith "# ".data (title.dropWhile (· = ' ')) = false →
       nb_readlines name src = .error (.titleError (titleErrorMsg name))
       ∧ name <:+: titleErrorMsg name)
    ∧ (startsWith "# ".data (title.dropWhile (· = ' ')) = true →
       nb_readlines name src
         = .ok (rest, splitChar '\n' (title :: rest).flatten)) := by
  have hblank : isBlankLine title = false := by
    induction src with
    | nil => exact absurd h (by simp)
    | cons x xs ih =>
      rw [List.dropWhile_cons] at h
      split at h
      · exact ih h
      · next hx =>
        obtain ⟨rfl, -⟩ := List.cons.inj h
        simpa using hx
  have hne : title.dropWhile (· = ' ') ≠ [] := by
    intro he
    have hall : ∀ c ∈ title, c = ' ' := by
      simpa using List.dropWhile_eq_nil_iff.1 he
    have : pstrip title = [] := by
      have : lstrip title = [] :=
        List.dropWhile_eq_nil_iff.2 fun c hc => by
          rw [hall c hc]; rfl
      rw [pstrip, this]
      rfl
    simp [isBlankLine, this] at hblank
  rcases ht : title.dropWhile (· = ' ') with _ | ⟨c, cs⟩
  · exact absurd ht hne
  constructor
  · intro hstart
    refine ⟨?_, "could not find title for post '".data, "'".data, rfl⟩
    rw [nb_readlines, h]
    dsimp only
    rw [ht]
    simp [hstart]
  · intro hstart
    rw [nb_readlines, h]
    dsimp only
    rw [ht]
    simp [hstart]

theorem notebook_title_check_witness :
    (["".data, "Intro".data].dropWhile isBlankLine
        = "Intro".data :: ([] : List Str))
    ∧ startsWith "# ".data ("Intro".data.dropWhile (· = ' ')) = false
    ∧ nb_readlines "my-post".data ["".data, "Intro".data]
        = .error (.titleError (titleErrorMsg "my-post".data)) :=
  ⟨by decide, by decide,
    ((notebook_title_check "my-post".data ["".data, "Intro".data]
      "Intro".data [] (by decide)).1 (by decide)).1⟩

/-- C5: in the render loop over a (descending-ordered) post list, the post
at position `i` is rendered with `next_post` the post at position `i - 1`
and `previous_post` the post at position `i + 1`; the first (newest) post
has no next and the last (oldest) has no previous.  The same loop is used
verbatim for a Tag's member list, giving tag-scoped sibling links. -/
theorem render_loop_sibling_links (posts : List P) (i : Nat)
    (h : i < posts.length) :
    (renderLoopCalls posts)[i]? = some
      { post := posts.get ⟨i, h⟩
        next_post := if i = 0 then none
                     else some (posts.get ⟨i - 1, by omega⟩)
        previous_post := if h2 : i = posts.length - 1 then none
                     else some (posts.get ⟨i + 1, by omega⟩) } := by
  simp only [renderLoopCalls, List.getElem?_map, List.getElem?_enum,
    List.getElem?_eq_getElem h, Option.map_some']
  by_cases h0 : i = 0 <;> by_cases h1 : i = posts.length - 1 <;>
    simp_all [List.getElem?_eq_getElem (show i - 1 < posts.length by omega),
      List.get_eq_getElem]

theorem render_loop_sibling_links_witness :
    1 < ([10, 20, 30] : List Nat).length
    ∧ (renderLoopCalls [10, 20, 30])[1]? = some
        { post := 20, next_post := some 10, previous_post := some 30 } := by
  refine ⟨by decide, ?_⟩
  have := render_loop_sibling_links ([10, 20, 30] : List Nat) 1 (by decide)
  simpa using this

theorem renderTagsLoop_ok_iff (uriOf : P → Str) (tags : List (Str × List P)) :
    (renderTagsLoop uriOf tags).2 = none ↔ ∀ t ∈ tags, t.2 ≠ [] := by
  induction tags with
  | nil => simp [renderTagsLoop]
  | cons t rest ih =>
    obtain ⟨u, ps⟩ := t
    cases ps with
    | nil => simp [renderTagsLoop, Tag.renderM]
    | cons p ps' => simp [renderTagsLoop, Tag.renderM, ih]

/-- C10: rendering a `Tag` or an `Index` whose post list is empty fails
with an index-out-of-range error before any file is written (the first
statement of each render evaluates `posts[0]`); rendering succeeds
exactly when the post list is non-empty (and, for the index, every tag
has at least one member). -/
theorem empty_posts_rendering_raises (uriOf : P → Str) (tagUri : Str)
    (posts : List P) (tags : List (Str × List P)) :
    Tag.renderM uriOf tagUri ([] : List P) = ([], some .indexError)
    ∧ Index.renderM uriOf ([] : List P) tags = ([], some .indexError)
    ∧ ((Tag.renderM uriOf tagUri posts).2 = none ↔ posts ≠ [])
    ∧ ((Index.renderM uriOf posts tags).2 = none ↔
        (posts ≠ [] ∧ ∀ t ∈ tags, t.2 ≠ [])) := by
  refine ⟨rfl, rfl, ?_, ?_⟩
  · cases posts <;> simp [Tag.renderM]
  · cases posts with
    | nil => simp [Index.renderM]
    | cons p ps =>
      have hiff := renderTagsLoop_ok_iff uriOf tags
      simp only [Index.renderM]
      rcases hr : renderTagsLoop uriOf tags with ⟨tws, r⟩
      rw [hr] at hiff
      cases r with
      | none =>
        simp_all
        exact hiff
      | some e => simp_all

theorem splitLB_ne_nil (s : Str) : splitLB s ≠ [] := by
  induction s using splitLB.induct with
  | case1 rest ih => rw [splitLB.eq_1]; simp
  | case2 c rest hne h0 ih => exact absurd h0 ih
  | case3 c rest hne p ps hp ih =>
    rw [splitLB.eq_2 c rest hne, hp]
    simp
  | case4 => rw [splitLB.eq_3]; simp

theorem splitLB_single_shrink (c : Char) (rest : Str)
    (hne : ∀ rest', c = ']' → rest = '(' :: rest' → False)
    (h : splitLB (c :: rest) = [c :: rest]) : splitLB rest = [rest] := by
  rw [splitLB.eq_2 c rest hne] at h
  rcases hp : splitLB rest with _ | ⟨p, ps⟩
  · exact absurd hp (splitLB_ne_nil rest)
  · rw [hp] at h
    simp only [List.cons.injEq] at h
    obtain ⟨⟨-, rfl⟩, rfl⟩ := h
    rfl

theorem splitLB_append (a m : Str) (ha : splitLB a = [a]) :
    splitLB (a ++ ']' :: '(' :: m) = a :: splitLB m := by
  induction a using splitLB.induct with
  | case1 rest ih =>
    rw [splitLB.eq_1] at ha
    simp at ha
  | case2 c rest hne h0 ih => exact absurd h0 (splitLB_ne_nil rest)
  | case3 c rest hne p ps hp ih =>
    have hrest : splitLB rest = [rest] := splitLB_single_shrink c rest hne ha
    have hne' : ∀ rest₁, c = ']' → rest ++ ']' :: '(' :: m = '(' :: rest₁ → False := by
      intro rest₁ hc habs
      cases rest with
      | nil => simp at habs
      | cons d rest' =>
        simp only [List.cons_append, List.cons.injEq] at habs
        exact hne rest' hc (by rw [habs.1])
    rw [List.cons_append, splitLB.eq_2 c _ hne', ih hrest]
  | case4 =>
    rw [List.nil_append, splitLB.eq_1]

theorem splitLB_append_no_sep (t b : Str) (ht : splitLB t = [t])
    (hb : splitLB b = [b]) : splitLB (t ++ ')' :: b) = [t ++ ')' :: b] := by
  induction t using splitLB.induct with
  | case1 rest ih =>
    rw [splitLB.eq_1] at ht
    simp at ht
  | case2 c rest hne h0 ih => exact absurd h0 (splitLB_ne_nil rest)
  | case3 c rest hne p ps hp ih =>
    have hrest : splitLB rest = [rest] := splitLB_single_shrink c rest hne ht
    have hne' : ∀ rest₁, c = ']' → rest ++ ')' :: b = '(' :: rest₁ → False := by
      intro rest₁ hc habs
      cases rest with
      | nil => simp at habs
      | cons d rest' =>
        simp only [List.cons_append, List.cons.injEq] at habs
        exact hne rest' hc (by rw [habs.1])
    rw [List.cons_append, splitLB.eq_2 c _ hne', ih hrest]
  | case4 =>
    rw [List.nil_append,
      splitLB.eq_2 ')' b (fun _ hc _ => absurd hc (by decide)), hb]

theorem not_mem_of_splitChar_single (c : Char) (s : Str)
    (h : splitChar c s = [s]) : c ∉ s := by
  induction s with
  | nil => simp
  | cons d s' ih =>
    rw [splitChar] at h
    by_cases hd : d = c
    · rw [if_pos hd] at h
      simp at h
    · rw [if_neg hd] at h
      rcases hp : splitChar c s' with _ | ⟨p, ps⟩
      · exact absurd hp (splitChar_ne_nil c s')
      · rw [hp] at h
        simp only [List.cons.injEq] at h
        obtain ⟨⟨-, rfl⟩, rfl⟩ := h
        simp only [List.mem_cons, not_or]
        exact ⟨fun e => hd e.symm, ih hp⟩

theorem joinWith_splitChar (c : Char) (s : Str) :
    joinWith [c] (splitChar c s) = s := by
  induction s with
  | nil => rfl
  | cons d s' ih =>
    rw [splitChar]
    rcases hp : splitChar c s' with _ | ⟨p, ps⟩
    · exact absurd hp (splitChar_ne_nil c s')
    · rw [hp] at ih
      by_cases hd : d = c
      · rw [if_pos hd, joinWith_cons_cons]
        subst hd
        simpa using ih
      · rw [if_neg hd]
        cases ps with
        | nil =>
          rw [joinWith_singleton] at ih ⊢
          rw [ih]
        | cons q qs =>
          rw [joinWith_cons_cons] at ih
          rw [joinWith_cons_cons, ← ih]
          simp

/-- C3: the link-rewriting pass maps a link target `](target)` to the
root-relative `/<stem>.html`, leaving targets that start with `http://`,
`https://` or the static-asset prefix `static` unchanged (stated for a
content string containing one link, with no stray separators in its
pieces). -/
theorem markdown_link_rewriting (a t b : Str)
    (ha : splitLB a = [a]) (ht : splitLB t = [t])
    (htp : splitChar ')' t = [t]) (hb : splitLB b = [b]) :
    replace_markdown_links (a ++ ']' :: '(' :: (t ++ ')' :: b))
      = if startsWith "http://".data t || startsWith "https://".data t
            || startsWith "static".data t then
          a ++ ']' :: '(' :: (t ++ ')' :: b)
        else
          a ++ ']' :: '(' :: (('/' :: pathStem t ++ ".html".data) ++ ')' :: b) := by
  have h1 : splitLB (a ++ ']' :: '(' :: (t ++ ')' :: b))
      = [a, t ++ ')' :: b] := by
    rw [splitLB_append a _ ha, splitLB_append_no_sep t b ht hb]
  have h2 : splitChar ')' (t ++ ')' :: b) = t :: splitChar ')' b :=
    splitChar_append_cons ')' t b (not_mem_of_splitChar_single ')' t htp)
  rw [replace_markdown_links, h1]
  dsimp only [List.map_cons, List.map_nil]
  rw [fixPart, h2]
  dsimp only
  by_cases hcond : (startsWith "http://".data t || startsWith "https://".data t
      || startsWith "static".data t) = true
  · rw [if_pos hcond, if_pos hcond, joinWith_cons_cons, joinWith_singleton]
    simp
  · rw [if_neg hcond, if_neg hcond]
    rcases hq : splitChar ')' b with _ | ⟨q, qs⟩
    · exact absurd hq (splitChar_ne_nil ')' b)
    · have hrt : joinWith [')'] (q :: qs) = b := by
        rw [← hq]; exact joinWith_splitChar ')' b
      rw [joinWith_cons_cons, joinWith_singleton, joinWith_cons_cons, hrt]
      simp

theorem markdown_link_rewriting_witness :
    replace_markdown_links "[x](other-post)".data = "[x](/other-post.html)".data
    ∧ replace_markdown_links "[x](https://example.com)".data
        = "[x](https://example.com)".data := by
  constructor
  · show replace_markdown_links
        ("[x".data ++ ']' :: '(' :: ("other-post".data ++ ')' :: [])) = _
    exact (markdown_link_rewriting "[x".data "other-post".data []
      (by decide) (by decide) (by decide) (by decide)).trans (by decide)
  · show replace_markdown_links
        ("[x".data ++ ']' :: '(' :: ("https://example.com".data ++ ')' :: [])) = _
    exact (markdown_link_rewriting "[x".data "https://example.com".data []
      (by decide) (by decide) (by decide) (by decide)).trans (by decide)

theorem strLE_total (a b : Str) : strLE a b || strLE b a := by
  induction a generalizing b with
  | nil => cases b <;> simp [strLE]
  | cons c as ih =>
    cases b with
    | nil => simp [strLE]
    | cons d bs =>
      by_cases h : c = d
      · subst h; simpa [strLE] using ih bs
      · have h2 : ¬ d = c := fun e => h e.symm
        simp only [strLE, if_neg h, if_neg h2]
        rcases lt_trichotomy c d with hlt | heq | hgt
        · simp [hlt]
        · exact absurd heq h
        · simp [hgt]

theorem strLE_trans (a b c : Str) (h1 : strLE a b) (h2 : strLE b c) :
    strLE a c := by
  induction a generalizing b c with
  | nil => cases c <;> simp [strLE]
  | cons x as ih =>
    cases b with
    | nil => simp [strLE] at h1
    | cons y bs =>
      cases c with
      | nil => simp [strLE] at h2
      | cons z cs =>
        by_cases hxy : x = y <;> by_cases hyz : y = z
        · subst hxy; subst hyz
          simp only [strLE, if_pos rfl] at h1 h2 ⊢
          exact ih bs cs h1 h2
        · subst hxy
          simp only [strLE, if_pos rfl, if_neg hyz] at h2 ⊢
          exact h2
        · subst hyz
          simp only [strLE, if_neg hxy] at h1 ⊢
          exact h1
        · simp only [strLE, if_neg hxy, if_neg hyz] at h1 h2
          have hxz : x < z := lt_trans (of_decide_eq_true h1) (of_decide_eq_true h2)
          have hne : ¬ x = z := ne_of_lt hxz
          simp [strLE, hne, hxz]

theorem tagLE_iff (num : T → Nat) (name : T → Str) (a b : T) :
    tagLE num name a b = true ↔
      (num b < num a ∨ (num a = num b ∧ strLE (name a) (name b))) := by
  simp [tagLE]

theorem tagLE_total (num : T → Nat) (name : T → Str) (a b : T) :
    tagLE num name a b || tagLE num name b a := by
  rcases lt_trichotomy (num a) (num b) with h | h | h
  · simp [tagLE, h]
  · have := strLE_total (name a) (name b)
    rcases Bool.or_eq_true_iff.1 this with h' | h' <;> simp [tagLE, h, h']
  · simp [tagLE, h]

theorem tagLE_trans (num : T → Nat) (name : T → Str) (a b c : T)
    (h1 : tagLE num name a b) (h2 : tagLE num name b c) :
    tagLE num name a c := by
  rw [tagLE_iff] at h1 h2 ⊢
  rcases h1 with h1 | ⟨h1e, h1s⟩ <;> rcases h2 with h2 | ⟨h2e, h2s⟩
  · exact Or.inl (lt_trans h2 h1)
  · exact Or.inl (h2e ▸ h1)
  · exact Or.inl (h1e ▸ h2)
  · exact Or.inr ⟨h1e.trans h2e, strLE_trans _ _ _ h1s h2s⟩

/-- C2: after construction, a `Tag`'s member list is sorted by descending
publish timestamp, the `Index`'s tag list is sorted by (descending member
count, ascending tag name), and the `Index`'s post list is sorted by
descending publish timestamp. -/
theorem construction_orderings (pub : P → Nat) (num : T → Nat)
    (name : T → Str) (tposts iposts : List P) (tags : List T) :
    (Tag.initPosts pub tposts).Pairwise (fun a b => pub b ≤ pub a)
    ∧ (Index.initTags num name tags).Pairwise
        (fun a b => num b < num a ∨ (num a = num b ∧ strLE (name a) (name b)))
    ∧ (Index.initPosts pub iposts).Pairwise (fun a b => pub b ≤ pub a) := by
  have hposts : ∀ l : List P,
      (sortPostsByPublished pub l).Pairwise (fun a b => pub b ≤ pub a) := by
    intro l
    have := @List.sorted_mergeSort P (fun a b : P => decide (pub b ≤ pub a))
      (fun a b c h1 h2 => by
        simp only [decide_eq_true_eq] at *; omega)
      (fun a b => by
        simp only [Bool.or_eq_true, decide_eq_true_eq]
        exact Nat.le_total (pub b) (pub a)) l
    exact this.imp (by simp)
  refine ⟨hposts tposts, ?_, hposts iposts⟩
  have := @List.sorted_mergeSort T (tagLE num name)
    (tagLE_trans num name) (tagLE_total num name) tags
  exact this.imp (fun h => (tagLE_iff num name _ _).1 h)

end Blog
